import Mathlib

/-!
Verification of the EEQ syllabus-processing pipeline
(`app_streamlit_2.py` and `app_streamlit_3.py`).

The pipeline lists files in a remote Dropbox folder, downloads a selected
subset, extracts plain text from `.docx` / `.pdf` byte buffers, assembles a
prompt per document, calls a chat-completion service once per document, and
aggregates the results into one Word document.

Shallow embedding conventions:
* Python strings are Lean `String`s; `str.strip`, `str.lower`,
  `str.endswith` are modelled by `pyStrip`, `pyLower`, `pyEndsWith` below.
* The binary parsing libraries (`python-docx`, PyMuPDF) are black boxes: a
  valid `.docx` byte buffer is modelled by the list of its paragraph texts in
  document order, a valid `.pdf` byte buffer by the list of its page texts in
  page order (`FileContent`).
* The Dropbox listing API is modelled by the list of entry pages the provider
  hands back across `files_list_folder` / `files_list_folder_continue`.
* The chat-completion client is a black box `ChatRequest → List String`
  returning the contents of the response choices.
-/

namespace EEQ

/-- Python's whitespace set for `str.strip()` (ASCII portion: space, tab,
newline, carriage return, vertical tab, form feed). -/
def isPyWhitespace (c : Char) : Bool :=
  c = ' ' || c = '\t' || c = '\n' || c = '\r' || c = '\x0b' || c = '\x0c'

/-- Python `s.strip()`: drop leading and trailing whitespace. -/
def pyStrip (s : String) : String :=
  ⟨((s.data.dropWhile isPyWhitespace).reverse.dropWhile isPyWhitespace).reverse⟩

/-- Python `s.lower()` (ASCII case folding as used by the filename checks). -/
def pyLower (s : String) : String :=
  ⟨s.data.map Char.toLower⟩

/-- Python `s.endswith(suf)`. -/
def pyEndsWith (s suf : String) : Bool :=
  suf.data.isSuffixOf s.data

/-! ## Prompt assembly (`full_prompt`, both variants, identical text) -/

/-- The `full_prompt` expression of the processing loop
(`app_streamlit_2.py` lines 151-156, `app_streamlit_3.py` lines 264-269):
`base_prompt.strip()` followed by two adjacent string literals followed by
the syllabus text. -/
def full_prompt (base_prompt syllabus_text : String) : String :=
  pyStrip base_prompt
    ++ "\n\n---\n\nNow analyze the following course syllabus and generate the EEQ extraction "
    ++ "in the same format as above.\n\nCourse Syllabus:\n\n"
    ++ syllabus_text

/-- The single separator literal named by the specification. -/
def promptSeparator : String :=
  "\n\n---\n\nNow analyze the following course syllabus and generate the EEQ extraction in the same format as above.\n\nCourse Syllabus:\n\n"

/-! ## Text extraction -/

/-- `extract_text_from_docx_bytes`: `"\n".join(p.text for p in doc.paragraphs)`.
The byte buffer is modelled by the paragraph-text list the parser yields. -/
def extract_text_from_docx_bytes (paragraphs : List String) : String :=
  String.intercalate "\n" paragraphs

/-- `extract_text_from_pdf_bytes`: `text = ""` then `text += page.get_text()`
over the pages in order.  The byte buffer is modelled by the page-text list
the parser yields. -/
def extract_text_from_pdf_bytes (pages : List String) : String :=
  pages.foldl (fun text page => text ++ page) ""

/-- The specification's `p1 + "\n" + p2 + ... + "\n" + pn`. -/
def newlineJoined : List String → String
  | [] => ""
  | [p] => p
  | p :: ps => p ++ "\n" ++ newlineJoined ps

/-- The specification's `t1 + t2 + ... + tn` with no separator. -/
def concatenated : List String → String
  | [] => ""
  | t :: ts => t ++ concatenated ts

/-! ## Helper lemmas -/

theorem intercalate_go_eq (s : String) :
    ∀ (as : List String) (acc : String),
      String.intercalate.go acc s as = acc ++ concatenated (as.map (s ++ ·)) := by
  intro as
  induction as with
  | nil => intro acc; simp [String.intercalate.go, concatenated]
  | cons a as ih =>
      intro acc
      simp only [String.intercalate.go, List.map_cons, concatenated, ih]
      rw [← String.append_assoc, ← String.append_assoc]

theorem newlineJoined_cons (p : String) (ps : List String) :
    newlineJoined (p :: ps) = p ++ concatenated (ps.map ("\n" ++ ·)) := by
  induction ps generalizing p with
  | nil => simp [newlineJoined, concatenated]
  | cons q qs ih =>
      simp only [newlineJoined, List.map_cons, concatenated]
      rw [ih q, ← String.append_assoc, ← String.append_assoc, String.append_assoc p]

theorem foldl_append_eq (ts : List String) :
    ∀ init : String, ts.foldl (fun text page => text ++ page) init = init ++ concatenated ts := by
  induction ts with
  | nil => intro init; simp [concatenated]
  | cons t ts ih =>
      intro init
      simp only [List.foldl_cons, concatenated, ih, String.append_assoc]

/-! ## Claim theorems (prompt assembly and extraction) -/

/-- C1: for every base prompt `b` and syllabus text `s`, the assembled prompt
is `pyStrip b` followed by the exact literal separator followed by `s`
unchanged — `s` is appended verbatim (it is a suffix), with no trimming or
truncation (the length is exactly additive, for arbitrarily long `s`). -/
theorem full_prompt_spec (b s : String) :
    full_prompt b s = pyStrip b ++ promptSeparator ++ s ∧
    (full_prompt b s).length = (pyStrip b).length + promptSeparator.length + s.length ∧
    s.data <:+ (full_prompt b s).data := by
  have hsep :
      ("\n\n---\n\nNow analyze the following course syllabus and generate the EEQ extraction " : String)
        ++ "in the same format as above.\n\nCourse Syllabus:\n\n" = promptSeparator := by
    decide
  have h : full_prompt b s = pyStrip b ++ promptSeparator ++ s := by
    show pyStrip b
        ++ "\n\n---\n\nNow analyze the following course syllabus and generate the EEQ extraction "
        ++ "in the same format as above.\n\nCourse Syllabus:\n\n"
        ++ s = pyStrip b ++ promptSeparator ++ s
    rw [String.append_assoc (pyStrip b), hsep]
  refine ⟨h, ?_, ?_⟩
  · rw [h]; simp [String.length_append, Nat.add_assoc]
  · rw [h]
    simpa using List.suffix_append ((pyStrip b ++ promptSeparator).data) s.data

/-- C2: extraction from a valid `.docx` buffer with paragraphs `[p1..pn]`
returns `p1 ++ "\n" ++ ... ++ "\n" ++ pn` exactly, and extraction from a
valid `.pdf` buffer with pages `[t1..tn]` returns `t1 ++ ... ++ tn` with no
separator inserted between pages. -/
theorem extract_text_spec (ps ts : List String) :
    extract_text_from_docx_bytes ps = newlineJoined ps ∧
    extract_text_from_pdf_bytes ts = concatenated ts := by
  constructor
  · cases ps with
    | nil => rfl
    | cons p ps =>
        show String.intercalate.go p "\n" ps = newlineJoined (p :: ps)
        rw [intercalate_go_eq, newlineJoined_cons]
  · show ts.foldl (fun text page => text ++ page) "" = concatenated ts
    rw [foldl_append_eq]
    exact String.empty_append _

/-! ## Result aggregation (`write_output_to_word`, both variants identical) -/

/-- One content block of the output Word document, as emitted by
`doc.add_heading` / `doc.add_paragraph` / `doc.add_page_break`. -/
inductive Block where
  | heading (level : Nat) (text : String)
  | paragraph (text : String)
  | pageBreak
  deriving DecidableEq

/-- `write_output_to_word`: starting from an empty document, for each
`(filename, output)` pair in order add a level-1 heading
`"EEQ Output for " + filename`, a paragraph with the output text, and a page
break.  The document is modelled by its block sequence. -/
def write_output_to_word (results : List (String × String)) : List Block :=
  results.foldl
    (fun doc r =>
      doc ++ [Block.heading 1 ("EEQ Output for " ++ r.1), Block.paragraph r.2, Block.pageBreak])
    []

/-- The three blocks one result pair contributes. -/
def sectionBlocks (r : String × String) : List Block :=
  [Block.heading 1 ("EEQ Output for " ++ r.1), Block.paragraph r.2, Block.pageBreak]

/-- The `(heading text, body text)` sections of a block sequence: a section is
a heading immediately followed by a paragraph. -/
def sections : List Block → List (String × String)
  | Block.heading _ h :: Block.paragraph b :: rest => (h, b) :: sections rest
  | _ :: rest => sections rest
  | [] => []

theorem foldl_append_blocks (f : (String × String) → List Block) (rs : List (String × String)) :
    ∀ acc : List Block,
      rs.foldl (fun doc r => doc ++ f r) acc = acc ++ (rs.map f).flatten := by
  induction rs with
  | nil => intro acc; simp
  | cons r rs ih =>
      intro acc
      simp only [List.foldl_cons, ih, List.map_cons, List.flatten_cons, List.append_assoc]

theorem write_output_eq_flatten (rs : List (String × String)) :
    write_output_to_word rs = (rs.map sectionBlocks).flatten := by
  show rs.foldl (fun doc r => doc ++ sectionBlocks r) [] = _
  rw [foldl_append_blocks]
  simp

/-- C3: aggregation emits, for the result pairs in order, exactly their
blocks in order (heading, body, page break per pair — hence a hard page
break stands before each subsequent pair), and the section list of the
produced document is exactly the input pairs in order with headings
`"EEQ Output for " + name` and bodies verbatim: no pair is merged,
reordered, or deduplicated. -/
theorem aggregate_sections (rs : List (String × String)) :
    write_output_to_word rs = (rs.map sectionBlocks).flatten ∧
    sections (write_output_to_word rs) = rs.map (fun r => ("EEQ Output for " ++ r.1, r.2)) := by
  refine ⟨write_output_eq_flatten rs, ?_⟩
  rw [write_output_eq_flatten]
  induction rs with
  | nil => rfl
  | cons r rs ih =>
      simp only [List.map_cons, List.flatten_cons]
      show sections (Block.heading 1 ("EEQ Output for " ++ r.1) :: Block.paragraph r.2 ::
        Block.pageBreak :: (rs.map sectionBlocks).flatten) = _
      rw [sections, sections]
      · exact congrArg _ ih
      · intro _ _ _ _ hcon _
        exact Block.noConfusion hcon

/-- C10: for every non-empty result sequence of length `k`, the aggregated
document contains exactly `k` page breaks — one after every section,
including a trailing page break after the last section. -/
theorem page_break_count (rs : List (String × String)) (h : rs ≠ []) :
    (write_output_to_word rs).countP (fun b => decide (b = Block.pageBreak)) = rs.length ∧
    (write_output_to_word rs).getLast? = some Block.pageBreak := by
  constructor
  · rw [write_output_eq_flatten]
    induction rs with
    | nil => rfl
    | cons r rs ih =>
        simp only [List.map_cons, List.flatten_cons, List.countP_append, List.length_cons]
        rw [Nat.add_comm]
        cases rs with
        | nil => rfl
        | cons r' rs' => rw [ih (by simp)]; rfl
  · rw [write_output_eq_flatten]
    induction rs with
    | nil => exact absurd rfl h
    | cons r rs ih =>
        cases rs with
        | nil => rfl
        | cons r' rs' =>
            simp only [List.map_cons, List.flatten_cons] at ih ⊢
            rw [List.getLast?_append, ih (by simp)]
            rfl

/-- Witness for C10 at the one-element batch `[("a", "x")]`. -/
theorem page_break_count_witness :
    ([(("a" : String), ("x" : String))] ≠ []) ∧
    ((write_output_to_word [("a", "x")]).countP (fun b => decide (b = Block.pageBreak)) = 1 ∧
      (write_output_to_word [("a", "x")]).getLast? = some Block.pageBreak) :=
  ⟨by simp, page_break_count [("a", "x")] (by simp)⟩

/-! ## Dropbox listing (`list_dropbox_folders`, `list_dropbox_files`) -/

/-- A Dropbox listing entry: `FolderMetadata`, or `FileMetadata` with its
`is_downloadable` flag (the only metadata kind carrying that attribute). -/
inductive DbxEntry where
  | folder (name path_lower : String)
  | file (name path_lower : String) (is_downloadable : Bool)
  deriving DecidableEq

/-- The pair `list_dropbox_folders` appends for an entry: `FolderMetadata`
always, and any entry that has `is_downloadable = False`
(`app_streamlit_3.py` lines 66-71). -/
def folderEntryPair : DbxEntry → Option (String × String)
  | DbxEntry.folder n p => some (n, p)
  | DbxEntry.file n p d => if d then none else some (n, p)

/-- The pair `list_dropbox_files` appends for an entry: `FileMetadata` whose
lowered name ends in `.pdf` or `.docx` (both variants). -/
def fileEntryPair : DbxEntry → Option (String × String)
  | DbxEntry.folder _ _ => none
  | DbxEntry.file n p _ =>
      if pyEndsWith (pyLower n) ".pdf" || pyEndsWith (pyLower n) ".docx" then some (n, p)
      else none

/-- Python string comparison: lexicographic on code points. -/
def charListLE : List Char → List Char → Bool
  | [], _ => true
  | _ :: _, [] => false
  | a :: as, b :: bs =>
      if a.toNat < b.toNat then true
      else if b.toNat < a.toNat then false
      else charListLE as bs

/-- The comparison behind `sort(key=lambda x: x[0].lower())`. -/
def byNameCI (x y : String × String) : Bool :=
  charListLE (pyLower x.1).data (pyLower y.1).data

theorem charListLE_total : ∀ as bs : List Char, (charListLE as bs || charListLE bs as) = true := by
  intro as
  induction as with
  | nil => intro bs; simp [charListLE]
  | cons a as ih =>
      intro bs
      cases bs with
      | nil => simp [charListLE]
      | cons b bs =>
          simp only [charListLE]
          rcases Nat.lt_trichotomy a.toNat b.toNat with hab | hab | hab
          · rw [if_pos hab]; simp
          · rw [if_neg (by omega), if_neg (by omega), if_neg (by omega), if_neg (by omega)]
            exact ih bs
          · rw [if_neg (by omega), if_pos hab]; simp [hab]

theorem charListLE_trans :
    ∀ as bs cs : List Char, charListLE as bs = true → charListLE bs cs = true →
      charListLE as cs = true := by
  intro as
  induction as with
  | nil => intro bs cs _ _; simp [charListLE]
  | cons a as ih =>
      intro bs cs h1 h2
      cases bs with
      | nil => simp [charListLE] at h1
      | cons b bs =>
          cases cs with
          | nil => simp [charListLE] at h2
          | cons c cs =>
              simp only [charListLE] at h1 h2 ⊢
              rcases Nat.lt_trichotomy a.toNat b.toNat with hab | hab | hab
              · rcases Nat.lt_trichotomy b.toNat c.toNat with hbc | hbc | hbc
                · rw [if_pos (by omega)]
                · rw [if_pos (by omega)]
                · rw [if_neg (by omega), if_pos hbc] at h2
                  exact absurd h2 (by simp)
              · rcases Nat.lt_trichotomy b.toNat c.toNat with hbc | hbc | hbc
                · rw [if_pos (by omega)]
                · rw [if_neg (by omega), if_neg (by omega)]
                  rw [if_neg (by omega), if_neg (by omega)] at h1
                  rw [if_neg (by omega), if_neg (by omega)] at h2
                  exact ih bs cs h1 h2
                · rw [if_neg (by omega), if_pos hbc] at h2
                  exact absurd h2 (by simp)
              · rw [if_neg (by omega), if_pos hab] at h1
                exact absurd h1 (by simp)

/-- `list_dropbox_folders` (`app_streamlit_3.py` lines 52-78): page through
the provider listing of the requested path until `has_more` is exhausted,
collect folder entries and non-downloadable entries, then sort by lowered
name.  The provider listing is modelled by its page sequence. -/
def list_dropbox_folders (pages : List (List DbxEntry)) : List (String × String) :=
  (pages.flatten.filterMap folderEntryPair).mergeSort byNameCI

/-- `list_dropbox_files` of `app_streamlit_2.py` (lines 34-49): page through
the listing, keep `.pdf`/`.docx` files, *no sort*. -/
def list_dropbox_files_v2 (pages : List (List DbxEntry)) : List (String × String) :=
  pages.flatten.filterMap fileEntryPair

/-- `list_dropbox_files` of `app_streamlit_3.py` (lines 86-110): same
filtering, then `files.sort(key=lambda x: x[0].lower())`. -/
def list_dropbox_files_v3 (pages : List (List DbxEntry)) : List (String × String) :=
  (pages.flatten.filterMap fileEntryPair).mergeSort byNameCI

/-- Counterexample to C5: on a listing whose single page holds one
non-downloadable *file* entry, `list_dropbox_folders` returns that entry,
although no folder entry exists in the listing at all — it does not return
only entries of kind Folder. -/
theorem list_dropbox_folders_not_only_folders :
    list_dropbox_folders [[DbxEntry.file "x" "/p/x" false]] = [("x", "/p/x")] ∧
    DbxEntry.folder "x" "/p/x" ∉ ([[DbxEntry.file "x" "/p/x" false]] : List (List DbxEntry)).flatten := by
  constructor
  · unfold list_dropbox_folders
    have h : ([[DbxEntry.file "x" "/p/x" false]] : List (List DbxEntry)).flatten.filterMap
        folderEntryPair = [("x", "/p/x")] := by decide
    rw [h, List.mergeSort_singleton]
  · decide

/-- C5 (amended): a pair is returned by `list_dropbox_folders` exactly when
the provider's pages for the requested path — paged through until
exhausted, non-recursively — contain it as a Folder entry *or* as a
non-downloadable file entry. -/
theorem list_dropbox_folders_spec (pages : List (List DbxEntry)) (np : String × String) :
    np ∈ list_dropbox_folders pages ↔
      DbxEntry.folder np.1 np.2 ∈ pages.flatten ∨
        DbxEntry.file np.1 np.2 false ∈ pages.flatten := by
  unfold list_dropbox_folders
  rw [List.mem_mergeSort, List.mem_filterMap]
  constructor
  · rintro ⟨e, he, hsome⟩
    cases e with
    | folder n p =>
        simp only [folderEntryPair, Option.some.injEq] at hsome
        subst hsome
        exact Or.inl he
    | file n p d =>
        cases d with
        | true => simp [folderEntryPair] at hsome
        | false =>
            simp only [folderEntryPair, if_neg, Option.some.injEq, Bool.false_eq_true,
              ite_false] at hsome
            subst hsome
            exact Or.inr he
  · rintro (hf | hf)
    · exact ⟨DbxEntry.folder np.1 np.2, hf, rfl⟩
    · exact ⟨DbxEntry.file np.1 np.2 false, hf, rfl⟩

/-- Counterexample to C6: in the `app_streamlit_2.py` variant the file
listing is *not* sorted — it keeps provider order, here `b.pdf` before
`a.pdf`, which is not case-insensitively ascending. -/
theorem list_dropbox_files_v2_unsorted :
    list_dropbox_files_v2 [[DbxEntry.file "b.pdf" "/b" true, DbxEntry.file "a.pdf" "/a" true]]
      = [("b.pdf", "/b"), ("a.pdf", "/a")] ∧
    ¬ (list_dropbox_files_v2
        [[DbxEntry.file "b.pdf" "/b" true, DbxEntry.file "a.pdf" "/a" true]]).Sorted
      (fun x y => byNameCI x y = true) := by
  constructor
  · decide
  · decide

theorem mem_fileEntryPair_suffix {l : List DbxEntry} {np : String × String}
    (h : np ∈ l.filterMap fileEntryPair) :
    (pyEndsWith (pyLower np.1) ".pdf" || pyEndsWith (pyLower np.1) ".docx") = true := by
  rw [List.mem_filterMap] at h
  obtain ⟨e, _, hsome⟩ := h
  cases e with
  | folder n p => simp [fileEntryPair] at hsome
  | file n p d =>
      simp only [fileEntryPair] at hsome
      by_cases hc : (pyEndsWith (pyLower n) ".pdf" || pyEndsWith (pyLower n) ".docx") = true
      · rw [if_pos hc, Option.some.injEq] at hsome
        subst hsome
        exact hc
      · rw [if_neg hc] at hsome
        exact Option.noConfusion hsome

/-- C6 (amended): in both variants every returned entry's name ends in
`.pdf` or `.docx` case-insensitively; the `app_streamlit_3.py` variant
additionally returns the sequence sorted ascending by name,
case-insensitively, while the `app_streamlit_2.py` variant returns provider
listing order. -/
theorem list_dropbox_files_spec (pages : List (List DbxEntry)) :
    ((list_dropbox_files_v2 pages).all fun np =>
      pyEndsWith (pyLower np.1) ".pdf" || pyEndsWith (pyLower np.1) ".docx") = true ∧
    ((list_dropbox_files_v3 pages).all fun np =>
      pyEndsWith (pyLower np.1) ".pdf" || pyEndsWith (pyLower np.1) ".docx") = true ∧
    (list_dropbox_files_v3 pages).Sorted (fun x y => byNameCI x y = true) ∧
    list_dropbox_files_v3 pages = (list_dropbox_files_v2 pages).mergeSort byNameCI := by
  refine ⟨?_, ?_, ?_, rfl⟩
  · rw [List.all_eq_true]
    intro np hnp
    exact mem_fileEntryPair_suffix hnp
  · rw [List.all_eq_true]
    intro np hnp
    rw [list_dropbox_files_v3, List.mem_mergeSort] at hnp
    exact mem_fileEntryPair_suffix hnp
  · show ((pages.flatten.filterMap fileEntryPair).mergeSort byNameCI).Pairwise
      (fun x y => byNameCI x y = true)
    exact @List.sorted_mergeSort _ byNameCI
      (fun a b c hab hbc => charListLE_trans _ _ _ hab hbc)
      (fun a b => charListLE_total _ _) _

/-! ## Download, batch assembly and the processing run -/

/-- The decoded content of an input byte buffer: what the black-box parsers
would yield for it.  A buffer parseable as a `.docx` is its paragraph list, a
buffer parseable as a `.pdf` is its page list. -/
inductive FileContent where
  | docx (paragraphs : List String)
  | pdf (pages : List String)
  deriving DecidableEq

/-- `download_dropbox_files` (both variants): walk the listed `files` in
listing order and download those whose name is in `set(selected_names)`.
The Dropbox download call is the black box `fetch : path → content`. -/
def download_dropbox_files (fetch : String → FileContent)
    (files : List (String × String)) (selected_names : List String) :
    List (String × FileContent) :=
  (files.filter (fun np => selected_names.contains np.1)).map (fun np => (np.1, fetch np.2))

/-- `combined_inputs` (`app_streamlit_3.py` lines 231-243): downloaded
Dropbox selections first, then the uploaded files in upload order. -/
def combined_inputs (fetch : String → FileContent) (files : List (String × String))
    (selected_dropbox_files : List String) (uploaded_files : List (String × FileContent)) :
    List (String × FileContent) :=
  download_dropbox_files fetch files selected_dropbox_files ++ uploaded_files

/-- One chat message: role and content. -/
structure ChatMessage where
  role : String
  content : String
  deriving DecidableEq

/-- The request `ask_gpt` submits: model name, message list, temperature. -/
structure ChatRequest where
  model : String
  messages : List ChatMessage
  temperature : ℚ
  deriving DecidableEq

/-- `MODEL_NAME` (both variants). -/
def MODEL_NAME : String := "gpt-4-1106-preview"

/-- The request built by `ask_gpt` (both variants, lines 101-110 resp.
149-158): fixed model, a system message, the prompt as user message,
temperature 0.2. -/
def ask_gpt_request (prompt : String) : ChatRequest :=
  ⟨MODEL_NAME,
   [⟨"system", "You are an assistant helping QA Commons extract and format EEQs."⟩,
    ⟨"user", prompt⟩],
   (0.2 : ℚ)⟩

/-- `ask_gpt`: submit the request to the black-box completion service and
return `response.choices[0].message.content`.  The service is modelled as a
function from the request to the list of its choice contents. -/
def ask_gpt (complete : ChatRequest → List String) (prompt : String) : String :=
  (complete (ask_gpt_request prompt)).headD ""

/-- The suffix dispatch of the processing loop
(`app_streamlit_2.py` lines 146-149, `app_streamlit_3.py` lines 259-262):
`.docx` names go to the docx extractor, every other name goes to the pdf
extractor. -/
inductive ExtractorKind where
  | docxExtractor
  | pdfExtractor
  deriving DecidableEq

/-- Which extractor the processing loop runs for a given file name. -/
def chosen_extractor (name : String) : ExtractorKind :=
  if pyEndsWith (pyLower name) ".docx" then ExtractorKind.docxExtractor
  else ExtractorKind.pdfExtractor

/-- The extraction step of the loop on decoded content; `none` models the
`ExtractionError` raised when the chosen parser rejects the bytes. -/
def extract_auto (name : String) (content : FileContent) : Option String :=
  if pyEndsWith (pyLower name) ".docx" then
    match content with
    | FileContent.docx ps => some (extract_text_from_docx_bytes ps)
    | FileContent.pdf _ => none
  else
    match content with
    | FileContent.pdf ts => some (extract_text_from_pdf_bytes ts)
    | FileContent.docx _ => none

/-- The upload boundary: `st.file_uploader(..., type=["pdf", "docx"])` only
admits files carrying one of the two extensions. -/
def accepted_upload (name : String) : Bool :=
  pyEndsWith (pyLower name) ".pdf" || pyEndsWith (pyLower name) ".docx"

/-- The sequential processing loop over the batch: per input in order,
extract, assemble the prompt, issue one generation request.  Returns the
issued requests, the `(name, output)` results, and whether the run aborted
on an extraction failure (requests already issued before the failure
remain issued). -/
def run_loop (complete : ChatRequest → List String) (base_prompt : String) :
    List (String × FileContent) → List ChatRequest × List (String × String) × Bool
  | [] => ([], [], false)
  | x :: rest =>
      match extract_auto x.1 x.2 with
      | none => ([], [], true)
      | some t =>
          let r := run_loop complete base_prompt rest
          (ask_gpt_request (full_prompt base_prompt t) :: r.1,
           (x.1, ask_gpt complete (full_prompt base_prompt t)) :: r.2.1,
           r.2.2)

/-- What one press of "Start Processing" produced: whether the
empty-selection warning was shown, whether the run aborted, the generation
requests issued, and the collected results. -/
structure RunOutcome where
  warned : Bool
  aborted : Bool
  requests : List ChatRequest
  results : List (String × String)
  deriving DecidableEq

/-- The "Start Processing" handler of `app_streamlit_3.py` (lines 231-272):
merge Dropbox selections and uploads; on an empty batch show a warning and
stop; otherwise run the loop.  The navigation state `cwd` is returned
unchanged (the handler never assigns it). -/
def start_action_v3 (complete : ChatRequest → List String) (fetch : String → FileContent)
    (cwd : String) (files : List (String × String)) (selected : List String)
    (uploads : List (String × FileContent)) (base_prompt : String) (clicked : Bool) :
    RunOutcome × String :=
  if clicked then
    let inputs := combined_inputs fetch files selected uploads
    if inputs.isEmpty then (⟨true, false, [], []⟩, cwd)
    else
      let r := run_loop complete base_prompt inputs
      (⟨false, r.2.2, r.1, r.2.1⟩, cwd)
  else (⟨false, false, [], []⟩, cwd)

/-- The "Start Processing" handler of `app_streamlit_2.py` (line 137):
`if st.button("Start Processing") and selected_files:` — with an empty
selection the whole block is skipped and nothing at all happens. -/
def start_action_v2 (complete : ChatRequest → List String) (fetch : String → FileContent)
    (files : List (String × String)) (selected : List String) (base_prompt : String)
    (clicked : Bool) : RunOutcome :=
  if clicked && !selected.isEmpty then
    let r := run_loop complete base_prompt (download_dropbox_files fetch files selected)
    ⟨false, r.2.2, r.1, r.2.1⟩
  else ⟨false, false, [], []⟩

/-- Concrete completion service used by witnesses. -/
def complete0 : ChatRequest → List String := fun _ => ["out"]

/-- Concrete Dropbox fetch used by witnesses and counterexamples. -/
def fetch0 : String → FileContent := fun _ => FileContent.pdf ["t"]

/-- A lowered name cannot end in both `.pdf` and `.docx`. -/
theorem not_pdf_and_docx (s : String) :
    ¬(pyEndsWith s ".pdf" = true ∧ pyEndsWith s ".docx" = true) := by
  rintro ⟨h1, h2⟩
  rw [pyEndsWith, List.isSuffixOf_iff_suffix] at h1 h2
  rcases List.suffix_or_suffix_of_suffix h1 h2 with h | h
  · exact absurd h (by decide)
  · exact absurd h (by decide)

/-- Counterexample to C4: files listed as `a.docx, b.pdf`, user selection
order `b.pdf, a.docx`, no uploads.  The batch is processed in listing
order `a.docx, b.pdf`, not in the user's selection order. -/
theorem combined_inputs_not_selection_order :
    ((combined_inputs fetch0 [("a.docx", "/a"), ("b.pdf", "/b")] ["b.pdf", "a.docx"] []).map
        Prod.fst = ["a.docx", "b.pdf"]) ∧
    ((combined_inputs fetch0 [("a.docx", "/a"), ("b.pdf", "/b")] ["b.pdf", "a.docx"] []).map
        Prod.fst ≠ ["b.pdf", "a.docx"]) := by
  constructor
  · decide
  · decide

/-- C4 (amended): the batch processing order is the remote *listing* order
restricted to the selected name set — not the user's selection order —
followed by the uploaded items in upload order. -/
theorem combined_inputs_order (fetch : String → FileContent) (files : List (String × String))
    (sel : List String) (uploads : List (String × FileContent)) :
    (combined_inputs fetch files sel uploads).map Prod.fst =
      (files.map Prod.fst).filter (fun n => sel.contains n) ++ uploads.map Prod.fst := by
  rw [combined_inputs, List.map_append]
  congr 1
  rw [download_dropbox_files]
  induction files with
  | nil => rfl
  | cons np fs ih =>
      by_cases hm : np.1 ∈ sel
      · simp [List.filter_cons, hm, Function.comp]
        simpa [Function.comp] using ih
      · simp [List.filter_cons, hm, Function.comp]
        simpa [Function.comp] using ih

/-- C7: every input document reaching the extraction dispatch — whether
downloaded from the filtered Dropbox listing or admitted by the upload
boundary — has a name ending in `.pdf` or `.docx` (case-insensitive); a
`.docx` name runs the docx extractor, a `.pdf` name runs the pdf
extractor, so the suffix alone determines the extractor. -/
theorem dispatch_invariant (pages : List (List DbxEntry)) (fetch : String → FileContent)
    (sel : List String) (uploads : List (String × FileContent))
    (hup : ∀ u ∈ uploads, accepted_upload u.1 = true) :
    (∀ x ∈ combined_inputs fetch (list_dropbox_files_v3 pages) sel uploads,
      (pyEndsWith (pyLower x.1) ".pdf" = true ∨ pyEndsWith (pyLower x.1) ".docx" = true) ∧
      (pyEndsWith (pyLower x.1) ".docx" = true →
        chosen_extractor x.1 = ExtractorKind.docxExtractor) ∧
      (pyEndsWith (pyLower x.1) ".pdf" = true →
        chosen_extractor x.1 = ExtractorKind.pdfExtractor)) ∧
    (∀ x ∈ download_dropbox_files fetch (list_dropbox_files_v2 pages) sel,
      pyEndsWith (pyLower x.1) ".pdf" = true ∨ pyEndsWith (pyLower x.1) ".docx" = true) := by
  have hdisp : ∀ n : String,
      (pyEndsWith (pyLower n) ".docx" = true →
        chosen_extractor n = ExtractorKind.docxExtractor) ∧
      (pyEndsWith (pyLower n) ".pdf" = true →
        chosen_extractor n = ExtractorKind.pdfExtractor) := by
    intro n
    constructor
    · intro h; rw [chosen_extractor, if_pos h]
    · intro h
      have hnd : ¬pyEndsWith (pyLower n) ".docx" = true := fun hd =>
        not_pdf_and_docx (pyLower n) ⟨h, hd⟩
      rw [chosen_extractor, if_neg hnd]
  have hdl : ∀ (files : List (String × String)),
      (∀ np ∈ files, (pyEndsWith (pyLower np.1) ".pdf" || pyEndsWith (pyLower np.1) ".docx")
        = true) →
      ∀ x ∈ download_dropbox_files fetch files sel,
        pyEndsWith (pyLower x.1) ".pdf" = true ∨ pyEndsWith (pyLower x.1) ".docx" = true := by
    intro files hf x hx
    rw [download_dropbox_files, List.mem_map] at hx
    obtain ⟨np, hnp, hxnp⟩ := hx
    have := hf np (List.mem_of_mem_filter hnp)
    rw [Bool.or_eq_true] at this
    subst hxnp
    exact this
  constructor
  · intro x hx
    rw [combined_inputs, List.mem_append] at hx
    have hsuf : pyEndsWith (pyLower x.1) ".pdf" = true ∨
        pyEndsWith (pyLower x.1) ".docx" = true := by
      rcases hx with hx | hx
      · refine hdl _ (fun np hnp => ?_) x hx
        rw [list_dropbox_files_v3, List.mem_mergeSort] at hnp
        exact mem_fileEntryPair_suffix hnp
      · have := hup x hx
        rw [accepted_upload, Bool.or_eq_true] at this
        exact this
    exact ⟨hsuf, (hdisp x.1).1, (hdisp x.1).2⟩
  · exact hdl _ (fun np hnp => mem_fileEntryPair_suffix hnp)

/-- Witness for C7 at a one-file listing plus one upload, projected at the
uploaded document `b.docx`. -/
theorem dispatch_invariant_witness :
    (∀ u ∈ [(("b.docx" : String), FileContent.docx ["t"])], accepted_upload u.1 = true) ∧
    ((pyEndsWith (pyLower "b.docx") ".pdf" = true ∨
        pyEndsWith (pyLower "b.docx") ".docx" = true) ∧
      (pyEndsWith (pyLower "b.docx") ".docx" = true →
        chosen_extractor "b.docx" = ExtractorKind.docxExtractor) ∧
      (pyEndsWith (pyLower "b.docx") ".pdf" = true →
        chosen_extractor "b.docx" = ExtractorKind.pdfExtractor)) :=
  ⟨by decide,
   (dispatch_invariant [[DbxEntry.file "a.pdf" "/a" true]] fetch0 ["a.pdf"]
       [("b.docx", FileContent.docx ["t"])] (by decide)).1
     ("b.docx", FileContent.docx ["t"]) (List.mem_append_right _ (by simp))⟩

/-- Counterexample to C8: in the `app_streamlit_2.py` variant, pressing
"Start Processing" with an empty selection silently does nothing — no
empty-selection warning is reported. -/
theorem empty_start_no_warning_v2 :
    (start_action_v2 complete0 fetch0 [("a.pdf", "/a")] [] "base" true).warned = false := by
  rfl

/-- C8 (amended): with an empty selection the start action performs no
download, extraction or generation in either variant and leaves the
navigation state unchanged; `app_streamlit_3.py` reports the
empty-selection warning, while `app_streamlit_2.py` is a silent no-op with
no warning. -/
theorem empty_selection_guard (complete : ChatRequest → List String)
    (fetch : String → FileContent) (cwd base_prompt : String)
    (files : List (String × String)) :
    start_action_v3 complete fetch cwd files [] [] base_prompt true
      = (⟨true, false, [], []⟩, cwd) ∧
    start_action_v2 complete fetch files [] base_prompt true
      = ⟨false, false, [], []⟩ := by
  have hdl : download_dropbox_files fetch files [] = [] := by
    rw [download_dropbox_files, List.filter_eq_nil_iff.mpr (fun np _ => by simp), List.map_nil]
  constructor
  · rw [start_action_v3, if_pos rfl]
    have hin : combined_inputs fetch files [] [] = [] := by
      rw [combined_inputs, hdl, List.nil_append]
    rw [hin]
    rfl
  · rw [start_action_v2]
    rfl

/-- Counterexample to C9: the system role instruction of the issued request
is not the string `"assistant helping extract and format EEQs"` (the actual
fixed string names QA Commons). -/
theorem ask_gpt_system_not_spec_string :
    (ask_gpt_request "p").messages.head? ≠
      some ⟨"system", "assistant helping extract and format EEQs"⟩ := by
  decide

/-- C9 (amended): each request carries the fixed model
`gpt-4-1106-preview`, temperature 0.2, the fixed system instruction
`"You are an assistant helping QA Commons extract and format EEQs."` and
the assembled prompt as user content; `ask_gpt` returns the first choice's
content; and a completed (non-aborted) run issues exactly one request per
input document. -/
theorem ask_gpt_spec (complete : ChatRequest → List String) (prompt c : String)
    (cs : List String) (h : complete (ask_gpt_request prompt) = c :: cs) :
    (ask_gpt_request prompt).model = "gpt-4-1106-preview" ∧
    (ask_gpt_request prompt).temperature = 0.2 ∧
    (ask_gpt_request prompt).messages =
      [⟨"system", "You are an assistant helping QA Commons extract and format EEQs."⟩,
       ⟨"user", prompt⟩] ∧
    ask_gpt complete prompt = c ∧
    (∀ (base : String) (inputs : List (String × FileContent)),
      (run_loop complete base inputs).2.2 = false →
      (run_loop complete base inputs).1.length = inputs.length) := by
  refine ⟨rfl, rfl, rfl, ?_, ?_⟩
  · rw [ask_gpt, h]
    rfl
  · intro base inputs
    induction inputs with
    | nil => intro _; rfl
    | cons x rest ih =>
        intro hab
        simp only [run_loop] at hab ⊢
        cases hx : extract_auto x.1 x.2 with
        | none =>
            rw [hx] at hab
            exact Bool.noConfusion (show (true : Bool) = false from hab)
        | some t =>
            rw [hx] at hab
            show (ask_gpt_request (full_prompt base t) :: (run_loop complete base rest).1).length
              = rest.length + 1
            rw [List.length_cons, ih hab]

/-- Witness for C9 with the constant service `complete0`. -/
theorem ask_gpt_spec_witness :
    complete0 (ask_gpt_request "p") = "out" :: [] ∧
    ask_gpt complete0 "p" = "out" ∧
    (run_loop complete0 "b" [("a.docx", FileContent.docx ["t"])]).1.length = 1 :=
  ⟨rfl, (ask_gpt_spec complete0 "p" "out" [] rfl).2.2.2.1,
   (ask_gpt_spec complete0 "p" "out" [] rfl).2.2.2.2 "b"
     [("a.docx", FileContent.docx ["t"])] rfl⟩

end EEQ
